import Mathlib

/-!
Verification of the session-scoped document ingestion subsystem of the
document_portal repository.

The Python sources embedded here are:
  * `src/document_analyzer/data_ingestion.py` — `_sanitize_filename`,
    `DocumentHandler.save_document`, `DocumentHandler.read_document`;
  * `src/document_compare/data_ingestion.py` — `DocumentIngestion.save_uploaded_files`,
    `DocumentIngestion.read_pdf`, `DocumentIngestion.combine_documents`,
    `DocumentIngestion.cleanup_sessions`.

Modelling conventions:
  * Python strings are sequences of code points; filenames are embedded as
    `List Char`, and extracted page text as `String` (whose `.data` is the code
    point sequence).  Bytes are embedded as `List Nat`.
  * The filesystem effects of one operation are made explicit: `save_document`
    threads an `FS` record holding the temporary and the final file, writes by
    `save_uploaded_files` update an association list of path/content pairs.
  * The PDF parsing library (`fitz`) is an external collaborator: a parsed PDF
    is represented by its observable outputs — the `is_encrypted` flag and the
    list of per-page extracted texts.  Reads that may fail inside the library
    are represented by an outcome value per file.
  * Python's builtin `sorted` (a stable ascending sort) is embedded as a stable
    insertion sort `pySorted`.
-/

namespace DocPortal

/-! ## Filename sanitizer (`_sanitize_filename`, document_analyzer/data_ingestion.py)

`_SAFE_NAME_RE = re.compile(r"[^A-Za-z0-9 _.\-()]+")`; the function takes
`Path(name).name`, substitutes every maximal run of characters outside the safe
set by a single `_`, strips surrounding whitespace, appends `.pdf` unless the
name already ends with it case-insensitively, and truncates to 255 characters. -/

/-- Characters matched by the safe-name set `[A-Za-z0-9 _.\-()]`. -/
def isAllowedChar (c : Char) : Bool :=
  (('A' ≤ c && c ≤ 'Z') || ('a' ≤ c && c ≤ 'z') || ('0' ≤ c && c ≤ '9')
    || c == ' ' || c == '_' || c == '.' || c == '-' || c == '(' || c == ')')

/-- `re.sub` of `[^A-Za-z0-9 _.\-()]+` by `"_"`: each maximal run of characters
outside the safe set becomes one underscore.  The Boolean records whether the
previous character was part of such a run. -/
def subUnsafeGo : Bool → List Char → List Char
  | _, [] => []
  | inRun, c :: rest =>
    if isAllowedChar c then c :: subUnsafeGo false rest
    else if inRun then subUnsafeGo true rest
    else '_' :: subUnsafeGo true rest

def subUnsafe (l : List Char) : List Char := subUnsafeGo false l

/-- The whitespace set of Python's `str.strip()` (ASCII part; the inputs the
sanitizer feeds to `strip` contain only safe-set characters). -/
def pyIsSpace (c : Char) : Bool :=
  c == ' ' || c == '\t' || c == '\n' || c == '\r' || c == '\x0b' || c == '\x0c'

/-- Python `str.strip()`: drop whitespace from both ends. -/
def pyStripChars (l : List Char) : List Char :=
  ((l.dropWhile pyIsSpace).reverse.dropWhile pyIsSpace).reverse

/-- Split a POSIX path at `/` separators. -/
def splitOnSlash (l : List Char) : List (List Char) :=
  l.foldr
    (fun c acc =>
      match acc with
      | [] => if c == '/' then [[], []] else [[c]]
      | h :: t => if c == '/' then [] :: h :: t else (c :: h) :: t)
    [[]]

/-- `pathlib.PurePosixPath(name).name`: parsing drops empty components and `.`
components and keeps the last remaining component (empty when none remain). -/
def posixBaseName (l : List Char) : List Char :=
  ((splitOnSlash l).filter (fun c => !c.isEmpty && c != ['.'])).getLastD []

/-- The code points of the literal `".pdf"`. -/
def pdfExt : List Char := ['.', 'p', 'd', 'f']

/-- `name.lower().endswith(".pdf")` on a code-point list. -/
def endsWithPdfCI (l : List Char) : Bool :=
  pdfExt.isSuffixOf (l.map Char.toLower)

/-- `_sanitize_filename` from document_analyzer/data_ingestion.py. -/
def _sanitize_filename (name : List Char) : List Char :=
  let base := posixBaseName name
  let safe := pyStripChars (subUnsafe base)
  let safe2 := if endsWithPdfCI safe then safe else safe ++ pdfExt
  safe2.take 255

/-- `pathlib.PurePath(name).stem`: the final component minus its suffix, where
a suffix starts at the last `.` only when that dot is neither the first nor the
last character. -/
def pyStem (name : List Char) : List Char :=
  match (name.reverse.findIdx? (fun c => c == '.')) with
  | none => name
  | some j =>
    let i := name.length - 1 - j
    if 0 < i ∧ i < name.length - 1 then name.take i else name

/-! ## Single-document save (`DocumentHandler.save_document`)

The save loop reads the upload in 64 KiB chunks, checks the running size
against `max_size_mb * 1024 * 1024`, checks the `%PDF-` signature on the first
chunk, and writes each chunk to a temporary file; afterwards the temp file is
atomically renamed to the final name.  The `except` handler deletes the temp
file (when it exists) on any failure.

One iteration of the loop is driven by a `SaveEvt`: a successful read of some
bytes, a read that raises (interrupted/truncated stream), or a read whose
subsequent `f.write` raises after writing a partial run of bytes. -/

/-- The 5-byte PDF signature `%PDF-` as byte values. -/
def pdfSig : List Nat := [37, 80, 68, 70, 45]

/-- One loop iteration of `save_document`'s streaming loop, as observed at the
`file_stream.read` / `f.write` boundary. -/
inductive SaveEvt where
  | chunk (bs : List Nat)
  | readErr
  | writeErr (bs : List Nat) (written : List Nat)

/-- The per-operation filesystem state of one `save_document` call: the
temporary file and the final destination file (both under the session
directory, with names that are unique to this call). -/
structure FS where
  tmp : Option (List Nat)
  final : Option (List Nat)
deriving DecidableEq

/-- The distinguishable failure kinds of `save_document` (all are raised to the
caller wrapped as `DocumentPortalException`). -/
inductive SaveErr where
  | notPdfName
  | formatError
  | sizeError
  | ioErr
deriving DecidableEq

/-- The `while True` streaming loop of `save_document`: reads a chunk (an empty
read terminates the loop), accumulates the total size and fails once it exceeds
the limit, validates the `%PDF-` header on the first chunk, then appends the
chunk to the temp file. -/
def saveLoop (maxB : Nat) : List SaveEvt → Nat → Bool → FS → Except SaveErr Unit × FS
  | [], _, _, fs => (.ok (), fs)
  | .chunk bs :: rest, total, hc, fs =>
    if bs.isEmpty then (.ok (), fs)
    else
      let total2 := total + bs.length
      if total2 > maxB then (.error .sizeError, fs)
      else if !hc && !(pdfSig.isPrefixOf bs) then (.error .formatError, fs)
      else saveLoop maxB rest total2 true { fs with tmp := some (fs.tmp.getD [] ++ bs) }
  | .readErr :: _, _, _, fs => (.error .ioErr, fs)
  | .writeErr bs written :: _, total, hc, fs =>
    if bs.isEmpty then (.ok (), fs)
    else
      let total2 := total + bs.length
      if total2 > maxB then (.error .sizeError, fs)
      else if !hc && !(pdfSig.isPrefixOf bs) then (.error .formatError, fs)
      else (.error .ioErr, { fs with tmp := some (fs.tmp.getD [] ++ written) })

/-- `DocumentHandler.save_document`: sanitizes the name and requires a `.pdf`
extension, forms the unique on-disk name `<stem>_<uuid hex>.pdf`, opens the
temp file, runs the streaming loop, and either atomically renames temp to
final (`os.replace`) on success or unlinks the temp file on failure. -/
def save_document (fileName : List Char) (uuidHex : List Char) (evts : List SaveEvt)
    (maxSizeMb : Nat) : Except SaveErr (List Char) × FS :=
  let cleanName := _sanitize_filename fileName
  if !(endsWithPdfCI cleanName) then (.error .notPdfName, ⟨none, none⟩)
  else
    let uniqueName := pyStem cleanName ++ ['_'] ++ uuidHex ++ pdfExt
    match saveLoop (maxSizeMb * 1024 * 1024) evts 0 false ⟨some [], none⟩ with
    | (.ok _, fs) => (.ok uniqueName, ⟨none, fs.tmp⟩)
    | (.error e, fs) => (.error e, ⟨none, fs.final⟩)

/-- Chunking performed by `io.BytesIO(content).read(65536)` until exhaustion:
successive 64 KiB slices (the fuel argument `n` bounds the recursion depth; it
is instantiated with `content.length`, which suffices since every iteration
consumes at least one byte). -/
def chunksOfFuel : Nat → List Nat → List (List Nat)
  | 0, _ => []
  | n + 1, content =>
    if content.isEmpty then []
    else content.take 65536 :: chunksOfFuel n (content.drop 65536)

/-- The chunk sequence `BytesIO(content)` yields to the save loop. -/
def chunksOf (content : List Nat) : List (List Nat) :=
  chunksOfFuel content.length content

/-- `save_document` entered with an in-memory `bytes` upload (the
`isinstance(file_stream, bytes)` branch wraps it in a `BytesIO`). -/
def save_document_bytes (fileName uuidHex : List Char) (content : List Nat)
    (maxSizeMb : Nat) : Except SaveErr (List Char) × FS :=
  save_document fileName uuidHex ((chunksOf content).map SaveEvt.chunk) maxSizeMb

/-! ## Pair save (`DocumentIngestion.save_uploaded_files`)

Validates that both upload names end in `.pdf` (case-insensitively), builds the
two destination paths under the session directory, rejects identical paths,
then writes each upload's full buffer directly to its destination (no temp
file).  `ValueError` is re-raised unwrapped; any other failure is wrapped as
`DocumentPortalException`. -/

/-- A duck-typed upload object: `.name` and `.get_buffer()`. -/
structure Upload where
  name : List Char
  buffer : List Nat

/-- Whether a `with open(path, "wb") as f: f.write(buffer)` block completes,
or raises after `open` created the file and some partial run was written. -/
inductive WriteRes where
  | ok
  | err (written : List Nat)

/-- `save_uploaded_files` error surface: `ValueError` propagates unwrapped
(validation), everything else arrives wrapped as `DocumentPortalException`. -/
inductive PairErr where
  | validation
  | wrapped
deriving DecidableEq

/-- The session directory contents: path ↦ file bytes. -/
def FileMap := List (List Char × List Nat)

/-- Writing `content` at `path` (truncate-create semantics of mode `"wb"`). -/
def setFile (fs : FileMap) (path : List Char) (content : List Nat) : FileMap :=
  (path, content) :: fs.filter (fun e => !(e.1 == path))

/-- Look a file up by path. -/
def lookupFile (fs : FileMap) (path : List Char) : Option (List Nat) :=
  (fs.find? (fun e => e.1 == path)).map (fun e => e.2)

/-- `DocumentIngestion.save_uploaded_files`. `sessionPath` is the session
directory; `refW`/`actualW` describe whether each of the two writes completes. -/
def save_uploaded_files (sessionPath : List Char) (ref actual : Upload)
    (refW actualW : WriteRes) (fs : FileMap) :
    Except PairErr (List Char × List Char) × FileMap :=
  if !(endsWithPdfCI ref.name) then (.error .validation, fs)
  else if !(endsWithPdfCI actual.name) then (.error .validation, fs)
  else
    let refPath := sessionPath ++ '/' :: ref.name
    let actualPath := sessionPath ++ '/' :: actual.name
    if refPath == actualPath then (.error .validation, fs)
    else
      match refW with
      | .err w => (.error .wrapped, setFile fs refPath w)
      | .ok =>
        let fs1 := setFile fs refPath ref.buffer
        match actualW with
        | .err w => (.error .wrapped, setFile fs1 actualPath w)
        | .ok => (.ok (refPath, actualPath), setFile fs1 actualPath actual.buffer)

/-! ## PDF text extraction (`DocumentIngestion.read_pdf`)

The `fitz` library is external; a parsed document is represented by its
`is_encrypted` flag and the list of `page.get_text()` results in page order. -/

/-- Python `str.strip()` on a `String`. -/
def pyStrip (s : String) : String := ⟨pyStripChars s.data⟩

/-- The page-boundary marker `f"\n--- Page {n} ---\n"` (shared by both
extraction routines in the two ingestion modules). -/
def pageMarker (n : Nat) : String := "\n--- Page " ++ toString n ++ " ---\n"

/-- The page loop of `read_pdf`: pages whose text is empty or whitespace-only
are skipped, every other page contributes `f"\n--- Page {n+1} ---\n{text}"`. -/
def collect_page_texts : List String → Nat → List String
  | [], _ => []
  | t :: rest, n =>
    if t != "" && pyStrip t != "" then
      (pageMarker (n + 1) ++ t) :: collect_page_texts rest (n + 1)
    else
      collect_page_texts rest (n + 1)

/-- `DocumentIngestion.read_pdf`: validates existence and regular-file-ness
(`ValueError`, unwrapped), rejects encrypted PDFs (`ValueError`), returns `""`
for a zero-page document, otherwise joins the collected page blocks with
`"\n"`. -/
def read_pdf (pathExists pathIsFile encrypted : Bool) (pages : List String) :
    Except Unit String :=
  if !pathExists then .error ()
  else if !pathIsFile then .error ()
  else if encrypted then .error ()
  else if pages.length = 0 then .ok ""
  else .ok (String.intercalate "\n" (collect_page_texts pages 0))

/-! ## Combining a session's documents (`DocumentIngestion.combine_documents`) -/

/-- The outcome of `read_pdf` on one directory entry as observed by
`combine_documents`: either the extracted text, or any of the caught failures
(`ValueError`, `DocumentPortalException`, or an unexpected exception — all
three handlers skip the file). -/
inductive ReadOutcome where
  | ok (text : String)
  | err
deriving DecidableEq

/-- Stable insertion of `a` into `l` before the first element `b` with
`le a b`. -/
def pyInsert (le : α → α → Bool) (a : α) : List α → List α
  | [] => [a]
  | b :: bs => if le a b then a :: b :: bs else b :: pyInsert le a bs

/-- Python's builtin `sorted` (stable ascending sort w.r.t. `le`), embedded as
a stable insertion sort. -/
def pySorted (le : α → α → Bool) : List α → List α
  | [] => []
  | a :: as => pyInsert le a (pySorted le as)

/-- Lexicographic code-point comparison of Python strings (the order used when
`sorted` compares same-directory `Path` objects, which compare by their final
component here). -/
def charListLe : List Char → List Char → Bool
  | [], _ => true
  | _ :: _, [] => false
  | a :: as, b :: bs =>
    if a.toNat < b.toNat then true
    else if a.toNat = b.toNat then charListLe as bs
    else false

/-- The sorted `.pdf` listing (case-insensitive extension filter) of the
session directory built by `combine_documents`. -/
def sorted_pdf_files (entries : List (String × ReadOutcome)) :
    List (String × ReadOutcome) :=
  pySorted (fun a b => charListLe a.1.data b.1.data)
    (entries.filter (fun e => endsWithPdfCI e.1.data))

/-- The block contributed by one directory entry: `read_pdf` failures and
empty/whitespace-only extractions are skipped, other entries produce
`f"Document: {name}\n{content}"`. -/
def docBlock (e : String × ReadOutcome) : Option String :=
  match e.2 with
  | .ok s => if s != "" && pyStrip s != "" then some ("Document: " ++ e.1 ++ "\n" ++ s) else none
  | .err => none

/-- `DocumentIngestion.combine_documents` over the session directory listing
`entries` (name and per-file `read_pdf` outcome).  Directory entries have
pairwise distinct names, so the name-keyed dict of the source preserves the
sorted iteration order embedded here. -/
def combine_documents (entries : List (String × ReadOutcome)) : Except Unit String :=
  let pdf_files := sorted_pdf_files entries
  if pdf_files.isEmpty then .ok ""
  else
    let doc_parts := pdf_files.filterMap docBlock
    if doc_parts.isEmpty then .error ()
    else .ok (String.intercalate "\n\n" doc_parts)

/-! ## Streamed single-document extraction (`DocumentHandler.read_document`) -/

/-- The generator `extract_text_generator`: pages `0 ≤ i <
min(max_pages or total_pages, total_pages)` each yield the three fragments
marker, text, `"\n"`.  Python's `max_pages or total_pages` evaluates to
`total_pages` when `max_pages` is `None` **or** `0`. -/
def extract_fragments (pages : List String) (maxPages : Option Nat) : List String :=
  let totalPages := pages.length
  let pagesToProcess :=
    min (match maxPages with
          | none => totalPages
          | some 0 => totalPages
          | some k => k) totalPages
  ((List.range pagesToProcess).map
    (fun i => [pageMarker (i + 1), pages.getD i "", "\n"])).flatten

/-- The accumulation loop of `read_document`: appends fragments while the
running size stays within the cap and stops (without failing) at the first
fragment that would exceed it. -/
def accumulate_chunks (maxChunkSize : Nat) : List String → Nat → List String
  | [], _ => []
  | piece :: rest, size =>
    if size + piece.length > maxChunkSize then []
    else piece :: accumulate_chunks maxChunkSize rest (size + piece.length)

/-- `DocumentHandler.read_document` on a successfully opened PDF (represented
by its per-page extracted texts): accumulate the generator's fragments under
the 1 MiB soft cap and join them. -/
def read_document (pages : List String) (maxPages : Option Nat) : String :=
  String.join (accumulate_chunks 1048576 (extract_fragments pages maxPages) 0)

/-! ## Session pruning (`DocumentIngestion.cleanup_sessions`) -/

/-- One session subdirectory under the base directory: its name, its creation
time (`st_ctime`), and whether `shutil.rmtree(·, ignore_errors=True)` succeeds
in fully deleting it. -/
structure SessionDir where
  name : String
  ctime : Nat
  deletable : Bool
deriving DecidableEq

/-- The sort key of `cleanup_sessions`: creation time, newest first
(`sorted(key=..., reverse=True)`). -/
def sessionLe (a b : SessionDir) : Bool := decide (b.ctime ≤ a.ctime)

/-- `DocumentIngestion.cleanup_sessions`: clamp `keep_latest < 1` to the
default 3, return immediately when the base directory does not exist, sort the
session subdirectories by creation time descending, and remove every directory
past the first `keep` with `rmtree(ignore_errors=True)` — a directory whose
deletion fails is logged and left in place, never raised.  The result is the
set of directories that remain. -/
def cleanup_sessions (baseDirExists : Bool) (dirs : List SessionDir)
    (keepLatest : Int) : Except Unit (List SessionDir) :=
  let keep : Nat := if keepLatest < 1 then 3 else keepLatest.toNat
  if !baseDirExists then .ok dirs
  else
    let sessions := pySorted sessionLe dirs
    .ok (sessions.take keep ++ (sessions.drop keep).filter (fun d => !d.deletable))

/-! ## Helper lemmas about the chunked byte stream -/

theorem chunksOfFuel_congr :
    ∀ (n m : Nat) (content : List Nat), content.length ≤ n → content.length ≤ m →
      chunksOfFuel n content = chunksOfFuel m content := by
  intro n
  induction n with
  | zero =>
    intro m content hn _
    have hc : content = [] := List.length_eq_zero.mp (Nat.le_zero.mp hn)
    subst hc
    cases m <;> simp [chunksOfFuel]
  | succ n ih =>
    intro m content hn hm
    by_cases hc : content = []
    · subst hc; cases m <;> simp [chunksOfFuel]
    · have hlen : 1 ≤ content.length := by
        cases content with
        | nil => exact absurd rfl hc
        | cons a l => simp
      cases m with
      | zero => omega
      | succ m =>
        have hne : content.isEmpty = false := List.isEmpty_eq_false.mpr hc
        have hdrop : (content.drop 65536).length ≤ n := by
          rw [List.length_drop]; omega
        have hdrop2 : (content.drop 65536).length ≤ m := by
          rw [List.length_drop]; omega
        simp only [chunksOfFuel, hne, Bool.false_eq_true, if_false]
        rw [ih m (content.drop 65536) hdrop hdrop2]

theorem chunksOf_nil : chunksOf [] = [] := rfl

theorem chunksOf_cons (content : List Nat) (hc : content ≠ []) :
    chunksOf content = content.take 65536 :: chunksOf (content.drop 65536) := by
  have hlen : 1 ≤ content.length := by
    cases content with
    | nil => exact absurd rfl hc
    | cons a l => simp
  have hne : content.isEmpty = false := List.isEmpty_eq_false.mpr hc
  obtain ⟨k, hk⟩ : ∃ k, content.length = k + 1 := ⟨content.length - 1, by omega⟩
  unfold chunksOf
  rw [hk]
  simp only [chunksOfFuel, hne, Bool.false_eq_true, if_false]
  congr 1
  exact chunksOfFuel_congr k (content.drop 65536).length (content.drop 65536)
    (by rw [List.length_drop]; omega) (Nat.le_refl _)

theorem chunksOfFuel_flatten :
    ∀ (n : Nat) (content : List Nat), content.length ≤ n →
      (chunksOfFuel n content).flatten = content := by
  intro n
  induction n with
  | zero =>
    intro content hn
    have hc : content = [] := List.length_eq_zero.mp (Nat.le_zero.mp hn)
    subst hc; rfl
  | succ n ih =>
    intro content hn
    by_cases hc : content = []
    · subst hc; rfl
    · have hlen : 1 ≤ content.length := by
        cases content with
        | nil => exact absurd rfl hc
        | cons a l => simp
      have hne : content.isEmpty = false := List.isEmpty_eq_false.mpr hc
      simp only [chunksOfFuel, hne, Bool.false_eq_true, if_false, List.flatten_cons]
      rw [ih (content.drop 65536) (by rw [List.length_drop]; omega)]
      exact List.take_append_drop 65536 content

theorem chunksOf_flatten (content : List Nat) : (chunksOf content).flatten = content :=
  chunksOfFuel_flatten content.length content (Nat.le_refl _)

theorem chunksOf_sum_length (content : List Nat) :
    ((chunksOf content).map List.length).sum = content.length := by
  rw [← List.length_flatten, chunksOf_flatten]

theorem chunksOfFuel_ne_nil :
    ∀ (n : Nat) (content : List Nat), ∀ c ∈ chunksOfFuel n content, c ≠ [] := by
  intro n
  induction n with
  | zero => intro content c hc; simp [chunksOfFuel] at hc
  | succ n ih =>
    intro content c hc
    by_cases hnil : content = []
    · subst hnil; simp [chunksOfFuel] at hc
    · have hne : content.isEmpty = false := List.isEmpty_eq_false.mpr hnil
      simp only [chunksOfFuel, hne, Bool.false_eq_true, if_false, List.mem_cons] at hc
      rcases hc with hc | hc
      · subst hc
        rw [Ne, List.take_eq_nil_iff]
        push_neg
        exact ⟨by omega, hnil⟩
      · exact ih (content.drop 65536) c hc

theorem chunksOf_ne_nil (content : List Nat) : ∀ c ∈ chunksOf content, c ≠ [] :=
  chunksOfFuel_ne_nil content.length content

theorem pdfSig_isPrefixOf_take (content : List Nat) (h : pdfSig <+: content) :
    pdfSig.isPrefixOf (content.take 65536) = true := by
  rw [List.isPrefixOf_iff_prefix]
  have h5 : pdfSig = content.take 5 := by
    have := List.prefix_iff_eq_take.mp h
    simpa using this
  rw [List.prefix_iff_eq_take]
  have : (content.take 65536).take pdfSig.length = content.take 5 := by
    rw [List.take_take]
    norm_num [pdfSig]
  rw [this, ← h5]

theorem pdfSig_not_isPrefixOf_take (content : List Nat) (h : ¬ pdfSig <+: content) :
    pdfSig.isPrefixOf (content.take 65536) = false := by
  rw [Bool.eq_false_iff, Ne, List.isPrefixOf_iff_prefix]
  intro hpre
  exact h (hpre.trans (List.take_prefix 65536 content))

/-! ## Helper lemmas about the save loop -/

theorem saveLoop_final (maxB : Nat) :
    ∀ (evts : List SaveEvt) (total : Nat) (hc : Bool) (fs : FS),
      ((saveLoop maxB evts total hc fs).2).final = fs.final := by
  intro evts
  induction evts with
  | nil => intro total hc fs; rfl
  | cons e rest ih =>
    intro total hc fs
    cases e with
    | chunk bs =>
      simp only [saveLoop]
      by_cases hbs : bs.isEmpty
      · simp [hbs]
      · simp only [Bool.not_eq_true] at hbs
        simp only [hbs, Bool.false_eq_true, if_false]
        split
        · rfl
        · split
          · rfl
          · exact ih _ _ _
    | readErr => rfl
    | writeErr bs written =>
      simp only [saveLoop]
      by_cases hbs : bs.isEmpty
      · simp [hbs]
      · simp only [Bool.not_eq_true] at hbs
        simp only [hbs, Bool.false_eq_true, if_false]
        split
        · rfl
        · split <;> rfl

theorem saveLoop_chunks_ok (maxB : Nat) :
    ∀ (chunks : List (List Nat)) (total : Nat) (hc : Bool) (t : List Nat)
      (fin : Option (List Nat)),
      (∀ c ∈ chunks, c ≠ []) →
      total + ((chunks.map List.length).sum) ≤ maxB →
      (hc = false → ∀ c rest, chunks = c :: rest → pdfSig.isPrefixOf c = true) →
      saveLoop maxB (chunks.map SaveEvt.chunk) total hc ⟨some t, fin⟩ =
        (.ok (), ⟨some (t ++ chunks.flatten), fin⟩) := by
  intro chunks
  induction chunks with
  | nil => intro total hc t fin _ _ _; simp [saveLoop]
  | cons c rest ih =>
    intro total hc t fin hne hsz hhd
    have hc_ne : c ≠ [] := hne c (List.mem_cons_self c rest)
    have hce : c.isEmpty = false := List.isEmpty_eq_false.mpr hc_ne
    have hsum : total + (c.length + ((rest.map List.length).sum)) ≤ maxB := by
      simpa using hsz
    simp only [List.map_cons, saveLoop, hce, Bool.false_eq_true, if_false]
    rw [if_neg (by omega)]
    have hpass : (!hc && !(pdfSig.isPrefixOf c)) = false := by
      cases hc with
      | true => simp
      | false =>
        have := hhd rfl c rest rfl
        simp [this]
    rw [if_neg (by simp [hpass])]
    have := ih (total + c.length) true (t ++ c) fin
      (fun d hd => hne d (List.mem_cons_of_mem c hd))
      (by omega)
      (by intro h; exact absurd h (by simp))
    simp only [Option.getD_some]
    rw [this]
    simp [List.append_assoc]

theorem saveLoop_chunks_sizeErr (maxB : Nat) :
    ∀ (chunks : List (List Nat)) (total : Nat) (hc : Bool) (t : List Nat)
      (fin : Option (List Nat)),
      (∀ c ∈ chunks, c ≠ []) →
      total + ((chunks.map List.length).sum) > maxB →
      total ≤ maxB →
      t.length = total →
      (hc = false → ∀ c rest, chunks = c :: rest → pdfSig.isPrefixOf c = true) →
      ∃ t2 : List Nat,
        saveLoop maxB (chunks.map SaveEvt.chunk) total hc ⟨some t, fin⟩ =
          (.error .sizeError, ⟨some t2, fin⟩) ∧ t2.length ≤ maxB := by
  intro chunks
  induction chunks with
  | nil => intro total hc t fin _ hgt hle _ _; simp at hgt; omega
  | cons c rest ih =>
    intro total hc t fin hne hgt hle hlen hhd
    have hc_ne : c ≠ [] := hne c (List.mem_cons_self c rest)
    have hce : c.isEmpty = false := List.isEmpty_eq_false.mpr hc_ne
    have hsum : total + (c.length + ((rest.map List.length).sum)) > maxB := by
      simpa using hgt
    simp only [List.map_cons, saveLoop, hce, Bool.false_eq_true, if_false]
    by_cases hover : total + c.length > maxB
    · rw [if_pos hover]
      exact ⟨t, rfl, by omega⟩
    · rw [if_neg hover]
      have hpass : (!hc && !(pdfSig.isPrefixOf c)) = false := by
        cases hc with
        | true => simp
        | false =>
          have := hhd rfl c rest rfl
          simp [this]
      rw [if_neg (by simp [hpass])]
      simp only [Option.getD_some]
      exact ih (total + c.length) true (t ++ c) fin
        (fun d hd => hne d (List.mem_cons_of_mem c hd))
        (by omega) (by omega) (by simp [hlen])
        (by intro h; exact absurd h (by simp))

theorem saveLoop_chunks_ok_inv (maxB : Nat) :
    ∀ (chunks : List (List Nat)) (total : Nat) (hc : Bool) (t : List Nat)
      (fin : Option (List Nat)),
      (∀ c ∈ chunks, c ≠ []) →
      (saveLoop maxB (chunks.map SaveEvt.chunk) total hc ⟨some t, fin⟩).1 = .ok () →
      saveLoop maxB (chunks.map SaveEvt.chunk) total hc ⟨some t, fin⟩ =
        (.ok (), ⟨some (t ++ chunks.flatten), fin⟩) ∧
      (hc = false → chunks = [] ∨
        ∃ c rest, chunks = c :: rest ∧ pdfSig.isPrefixOf c = true) := by
  intro chunks
  induction chunks with
  | nil =>
    intro total hc t fin _ _
    exact ⟨by simp [saveLoop], fun _ => Or.inl rfl⟩
  | cons c rest ih =>
    intro total hc t fin hne hok
    have hc_ne : c ≠ [] := hne c (List.mem_cons_self c rest)
    have hce : c.isEmpty = false := List.isEmpty_eq_false.mpr hc_ne
    simp only [List.map_cons, saveLoop, hce, Bool.false_eq_true, if_false] at hok ⊢
    by_cases hover : total + c.length > maxB
    · rw [if_pos hover] at hok; simp at hok
    · rw [if_neg hover] at hok ⊢
      by_cases hhdr : (!hc && !(pdfSig.isPrefixOf c)) = true
      · rw [if_pos hhdr] at hok; simp at hok
      · rw [if_neg hhdr] at hok ⊢
        simp only [Option.getD_some] at hok ⊢
        obtain ⟨heq, _⟩ := ih (total + c.length) true (t ++ c) fin
          (fun d hd => hne d (List.mem_cons_of_mem c hd)) hok
        refine ⟨?_, ?_⟩
        · rw [heq]; simp [List.append_assoc]
        · intro hhc
          subst hhc
          simp only [Bool.not_false, Bool.true_and, Bool.not_eq_true',
            Bool.not_eq_true] at hhdr
          right
          exact ⟨c, rest, rfl, by simpa using hhdr⟩

/-- On any failure of `save_document`, the returned filesystem state has no
temp file and no final file (the `except` handler unlinks the temp file, and
`os.replace` was never reached). -/
theorem save_document_err_fs (fileName uuidHex : List Char) (evts : List SaveEvt)
    (maxSizeMb : Nat) (e : SaveErr)
    (herr : (save_document fileName uuidHex evts maxSizeMb).1 = .error e) :
    (save_document fileName uuidHex evts maxSizeMb).2 = (⟨none, none⟩ : FS) := by
  unfold save_document at herr ⊢
  by_cases hname : endsWithPdfCI (_sanitize_filename fileName)
  · simp only [hname, Bool.not_true, Bool.false_eq_true, if_false] at herr ⊢
    have hfin := saveLoop_final (maxSizeMb * 1024 * 1024) evts 0 false ⟨some [], none⟩
    rcases hres : saveLoop (maxSizeMb * 1024 * 1024) evts 0 false ⟨some [], none⟩ with ⟨res, fsl⟩
    rw [hres] at hfin herr
    cases res with
    | ok u => simp at herr
    | error e2 =>
      simp only at hfin
      simp [hfin]
  · simp only [Bool.not_eq_true] at hname
    simp [hname]

/-! ## C2 -/

/-- C2: for every upload and every failure of `save_document` before the final
atomic rename (invalid header, size breach, write error, interrupted stream),
after the error propagates the final destination file does not exist and no
temp file remains. -/
theorem C2_interrupted_save_leaves_nothing (fileName uuidHex : List Char)
    (evts : List SaveEvt) (maxSizeMb : Nat) (e : SaveErr)
    (herr : (save_document fileName uuidHex evts maxSizeMb).1 = .error e) :
    (save_document fileName uuidHex evts maxSizeMb).2.final = none ∧
    (save_document fileName uuidHex evts maxSizeMb).2.tmp = none := by
  rw [save_document_err_fs fileName uuidHex evts maxSizeMb e herr]
  exact ⟨rfl, rfl⟩

/-- Witness for C2 at a concrete interrupted stream. -/
theorem C2_interrupted_save_leaves_nothing_witness :
    (save_document "f.pdf".data "ab".data [SaveEvt.readErr] 1).1 = .error .ioErr ∧
    (save_document "f.pdf".data "ab".data [SaveEvt.readErr] 1).2.final = none ∧
    (save_document "f.pdf".data "ab".data [SaveEvt.readErr] 1).2.tmp = none :=
  ⟨rfl, C2_interrupted_save_leaves_nothing "f.pdf".data "ab".data [SaveEvt.readErr] 1 .ioErr rfl⟩

/-! ## C1 -/

/-- C1 (amended): `save_document` stores files whose unique name ends in
`.pdf`; on success the final file holds exactly the uploaded bytes, and a
non-empty upload can only succeed when its content starts with `%PDF-`; a
non-empty upload whose content does not start with `%PDF-` fails with no file
persisted.  (The claim's original universal form fails: an empty upload is
stored as an empty file, and `save_uploaded_files` checks only the filename
extension, not the content — see the counterexample.) -/
theorem C1_saved_pdf_invariant (fileName uuidHex : List Char) (content : List Nat)
    (maxSizeMb : Nat) :
    (∀ name, (save_document_bytes fileName uuidHex content maxSizeMb).1 = .ok name →
      pdfExt <:+ name ∧
      (save_document_bytes fileName uuidHex content maxSizeMb).2.final = some content ∧
      (content ≠ [] → pdfSig <+: content)) ∧
    (content ≠ [] → ¬ (pdfSig <+: content) →
      (∃ e, (save_document_bytes fileName uuidHex content maxSizeMb).1 = .error e) ∧
      (save_document_bytes fileName uuidHex content maxSizeMb).2 = (⟨none, none⟩ : FS)) := by
  constructor
  · intro name hok
    unfold save_document_bytes save_document at hok ⊢
    by_cases hname : endsWithPdfCI (_sanitize_filename fileName)
    · simp only [hname, Bool.not_true, Bool.false_eq_true, if_false] at hok ⊢
      rcases hres : saveLoop (maxSizeMb * 1024 * 1024)
          ((chunksOf content).map SaveEvt.chunk) 0 false ⟨some [], none⟩ with ⟨res, fsl⟩
      rw [hres] at hok
      cases res with
      | error e2 => simp at hok
      | ok u =>
        have h1 : (saveLoop (maxSizeMb * 1024 * 1024)
            ((chunksOf content).map SaveEvt.chunk) 0 false ⟨some [], none⟩).1 = .ok () := by
          rw [hres]
        obtain ⟨heq, hhd⟩ := saveLoop_chunks_ok_inv (maxSizeMb * 1024 * 1024)
          (chunksOf content) 0 false [] none (chunksOf_ne_nil content) h1
        rw [hres] at heq
        have hfsl : fsl = ⟨some content, none⟩ := by
          have := congrArg Prod.snd heq
          simpa [chunksOf_flatten] using this
        subst hfsl
        simp only [Except.ok.injEq] at hok
        refine ⟨?_, rfl, ?_⟩
        · rw [← hok]
          exact List.suffix_append _ _
        · intro hcne
          rcases hhd rfl with hnil | ⟨c, rest, hcr, hpre⟩
          · exact absurd (by rw [← chunksOf_flatten content, hnil]; rfl) hcne
          · rw [chunksOf_cons content hcne] at hcr
            have hcc : c = content.take 65536 := by
              injection hcr with h1 h2
              exact h1.symm
            subst hcc
            exact (List.isPrefixOf_iff_prefix.mp hpre).trans (List.take_prefix _ _)
    · simp only [Bool.not_eq_true] at hname
      simp [hname] at hok
  · intro hcne hnsig
    unfold save_document_bytes save_document
    by_cases hname : endsWithPdfCI (_sanitize_filename fileName)
    · simp only [hname, Bool.not_true, Bool.false_eq_true, if_false]
      have hch := chunksOf_cons content hcne
      have hce : (content.take 65536).isEmpty = false := by
        rw [List.isEmpty_eq_false, Ne, List.take_eq_nil_iff]
        push_neg
        exact ⟨by omega, hcne⟩
      have hnpre := pdfSig_not_isPrefixOf_take content hnsig
      rw [hch]
      simp only [List.map_cons, saveLoop, hce, Bool.false_eq_true, if_false]
      by_cases hover : 0 + (content.take 65536).length > maxSizeMb * 1024 * 1024
      · rw [if_pos hover]
        exact ⟨⟨.sizeError, rfl⟩, rfl⟩
      · rw [if_neg hover]
        rw [if_pos (by simp [hnpre])]
        exact ⟨⟨.formatError, rfl⟩, rfl⟩
    · simp only [Bool.not_eq_true] at hname
      refine ⟨⟨.notPdfName, ?_⟩, ?_⟩ <;> simp [hname]

/-- Witness for C1 at concrete inputs: a 5-byte `%PDF-` upload succeeds,
stored under a `.pdf` name with exactly the uploaded content; a 1-byte
non-PDF upload fails leaving nothing. -/
theorem C1_saved_pdf_invariant_witness :
    ((save_document_bytes "f.pdf".data "ab".data pdfSig 1).1 = .ok "f_ab.pdf".data ∧
      pdfExt <:+ "f_ab.pdf".data ∧
      (save_document_bytes "f.pdf".data "ab".data pdfSig 1).2.final = some pdfSig) ∧
    ((¬ (pdfSig <+: [104])) ∧
      (save_document_bytes "f.pdf".data "ab".data [104] 1).2 = (⟨none, none⟩ : FS)) := by
  have hn : ¬ (pdfSig <+: [104]) := fun h => absurd h.length_le (by decide)
  refine ⟨⟨rfl, ?_, ?_⟩, hn, ?_⟩
  · exact ((C1_saved_pdf_invariant "f.pdf".data "ab".data pdfSig 1).1 "f_ab.pdf".data rfl).1
  · exact ((C1_saved_pdf_invariant "f.pdf".data "ab".data pdfSig 1).1 "f_ab.pdf".data rfl).2.1
  · exact ((C1_saved_pdf_invariant "f.pdf".data "ab".data [104] 1).2
      (by decide) hn).2

/-- Counterexample to C1 as stated: `save_uploaded_files` persists content that
does not begin with `%PDF-` (it validates only the filename extension), and
`save_document` persists an empty upload whose content does not begin with
`%PDF-` either. -/
theorem C1_counterexample :
    (save_uploaded_files "s".data ⟨"a.pdf".data, [104, 105]⟩ ⟨"b.pdf".data, [119]⟩
        .ok .ok []).1 = .ok ("s/a.pdf".data, "s/b.pdf".data) ∧
    lookupFile (save_uploaded_files "s".data ⟨"a.pdf".data, [104, 105]⟩
        ⟨"b.pdf".data, [119]⟩ .ok .ok []).2 "s/a.pdf".data = some [104, 105] ∧
    pdfSig.isPrefixOf [104, 105] = false ∧
    save_document_bytes "f.pdf".data "ab".data [] 50 =
      (.ok "f_ab.pdf".data, (⟨none, some []⟩ : FS)) ∧
    pdfSig.isPrefixOf ([] : List Nat) = false := by
  exact ⟨rfl, rfl, rfl, rfl, rfl⟩

/-! ## C3 -/

/-- C3 (amended): for every upload whose sanitized filename passes the `.pdf`
check and whose content begins with `%PDF-`: content of exactly
`max_size_mb` megabytes is saved successfully (and in full), content exceeding
the limit by one byte fails with the size-limit error, leaves no persisted
artifact (no final file, no temp file), and the error is raised before the
offending bytes are written — the temp file contents at the moment of the
error never exceed the limit.  (The claim's unconditional form fails for
content that is not a PDF — see the counterexample.) -/
theorem C3_size_limit_boundary (fileName uuidHex : List Char) (content : List Nat)
    (maxSizeMb : Nat)
    (hname : endsWithPdfCI (_sanitize_filename fileName) = true)
    (hsig : pdfSig <+: content) :
    (content.length = maxSizeMb * 1024 * 1024 →
      ∃ name, save_document_bytes fileName uuidHex content maxSizeMb =
        (.ok name, ⟨none, some content⟩)) ∧
    (content.length = maxSizeMb * 1024 * 1024 + 1 →
      (save_document_bytes fileName uuidHex content maxSizeMb).1 = .error .sizeError ∧
      (save_document_bytes fileName uuidHex content maxSizeMb).2 = (⟨none, none⟩ : FS) ∧
      ∃ t, (saveLoop (maxSizeMb * 1024 * 1024) ((chunksOf content).map SaveEvt.chunk)
              0 false ⟨some [], none⟩).2.tmp = some t ∧
        t.length ≤ maxSizeMb * 1024 * 1024) := by
  have hcne : content ≠ [] := by
    intro h
    subst h
    have := hsig.length_le
    simp [pdfSig] at this
  have hhd : (false : Bool) = false → ∀ c rest, chunksOf content = c :: rest →
      pdfSig.isPrefixOf c = true := by
    intro _ c rest hcr
    rw [chunksOf_cons content hcne] at hcr
    injection hcr with h1 _
    rw [← h1]
    exact pdfSig_isPrefixOf_take content hsig
  constructor
  · intro hlen
    have hok := saveLoop_chunks_ok (maxSizeMb * 1024 * 1024) (chunksOf content) 0 false [] none
      (chunksOf_ne_nil content)
      (by rw [chunksOf_sum_length, hlen]; omega)
      hhd
    unfold save_document_bytes save_document
    simp only [hname, Bool.not_true, Bool.false_eq_true, if_false]
    rw [hok]
    simp [chunksOf_flatten]
  · intro hlen
    obtain ⟨t2, heq, hle⟩ := saveLoop_chunks_sizeErr (maxSizeMb * 1024 * 1024)
      (chunksOf content) 0 false [] none
      (chunksOf_ne_nil content)
      (by rw [chunksOf_sum_length, hlen]; omega)
      (by omega) rfl hhd
    refine ⟨?_, ?_, t2, ?_, hle⟩
    · unfold save_document_bytes save_document
      simp only [hname, Bool.not_true, Bool.false_eq_true, if_false]
      rw [heq]
    · unfold save_document_bytes save_document
      simp only [hname, Bool.not_true, Bool.false_eq_true, if_false]
      rw [heq]
    · rw [heq]

set_option maxRecDepth 2000 in
/-- Witness for C3 at a concrete 1 MiB `%PDF-` upload with limit 1 MB. -/
theorem C3_size_limit_boundary_witness :
    endsWithPdfCI (_sanitize_filename "f.pdf".data) = true ∧
    pdfSig <+: (pdfSig ++ List.replicate 1048571 0) ∧
    (pdfSig ++ List.replicate 1048571 0).length = 1 * 1024 * 1024 ∧
    ∃ name, save_document_bytes "f.pdf".data "ab".data
        (pdfSig ++ List.replicate 1048571 0) 1 =
      (.ok name, ⟨none, some (pdfSig ++ List.replicate 1048571 0)⟩) :=
  have hname : endsWithPdfCI (_sanitize_filename "f.pdf".data) = true := by
    have h : _sanitize_filename "f.pdf".data = "f.pdf".data := by decide
    rw [h]
    decide
  have hlen : (pdfSig ++ List.replicate 1048571 0).length = 1 * 1024 * 1024 := by
    rw [List.length_append, List.length_replicate]
    rfl
  ⟨hname, List.prefix_append _ _, hlen,
    (C3_size_limit_boundary "f.pdf".data "ab".data
        (pdfSig ++ List.replicate 1048571 0) 1 hname (List.prefix_append _ _)).1 hlen⟩

/-- A non-empty upload whose content does not begin with `%PDF-` and whose
first chunk is within the size limit fails the `%PDF-` header check. -/
theorem save_document_bytes_formatErr (fileName uuidHex : List Char)
    (content : List Nat) (maxSizeMb : Nat)
    (hname : endsWithPdfCI (_sanitize_filename fileName) = true)
    (hcne : content ≠ [])
    (hfit : (content.take 65536).length ≤ maxSizeMb * 1024 * 1024)
    (hnsig : ¬ pdfSig <+: content) :
    (save_document_bytes fileName uuidHex content maxSizeMb).1 = .error .formatError := by
  unfold save_document_bytes save_document
  simp only [hname, Bool.not_true, Bool.false_eq_true, if_false]
  have hce : (content.take 65536).isEmpty = false := by
    rw [List.isEmpty_eq_false, Ne, List.take_eq_nil_iff]
    push_neg
    exact ⟨by omega, hcne⟩
  have hnpre := pdfSig_not_isPrefixOf_take content hnsig
  rw [chunksOf_cons content hcne]
  simp only [List.map_cons, saveLoop, hce, Bool.false_eq_true, if_false]
  rw [if_neg (by omega)]
  rw [if_pos (by simp [hnpre])]

set_option maxRecDepth 2000 in
/-- Counterexample to C3 as stated: an upload of exactly `max_size_mb`
megabytes whose content does not begin with `%PDF-` does not succeed — it
fails with the format error on the first chunk. -/
theorem C3_counterexample :
    (List.replicate 1048576 (65 : Nat)).length = 1 * 1024 * 1024 ∧
    (save_document_bytes "f.pdf".data "ab".data (List.replicate 1048576 65) 1).1 =
      .error .formatError := by
  constructor
  · rw [List.length_replicate]
  · apply save_document_bytes_formatErr
    · have h : _sanitize_filename "f.pdf".data = "f.pdf".data := by decide
      rw [h]
      decide
    · intro h
      have := congrArg List.length h
      rw [List.length_replicate, List.length_nil] at this
      omega
    · rw [List.length_take, List.length_replicate]
      omega
    · intro h
      have hmem : (80 : Nat) ∈ List.replicate 1048576 (65 : Nat) :=
        h.subset (by decide)
      have := List.eq_of_mem_replicate hmem
      omega

/-! ## C7 -/

theorem splitOnSlash_no_slash (l : List Char) (h : ∀ c ∈ l, (c == '/') = false) :
    splitOnSlash l = [l] := by
  induction l with
  | nil => rfl
  | cons c rest ih =>
    have hrest : splitOnSlash rest = [rest] :=
      ih (fun d hd => h d (List.mem_cons_of_mem c hd))
    have hc : (c == '/') = false := h c (List.mem_cons_self c rest)
    rw [splitOnSlash, List.foldr_cons, ← splitOnSlash, hrest]
    simp [hc]

theorem subUnsafeGo_allowed (l : List Char) :
    ∀ b, (∀ c ∈ l, isAllowedChar c = true) → subUnsafeGo b l = l := by
  induction l with
  | nil => intro b _; rfl
  | cons c rest ih =>
    intro b h
    have hc := h c (List.mem_cons_self c rest)
    rw [subUnsafeGo]
    simp only [hc, if_true]
    rw [ih false (fun d hd => h d (List.mem_cons_of_mem c hd))]

theorem subUnsafe_allowed (l : List Char) (h : ∀ c ∈ l, isAllowedChar c = true) :
    subUnsafe l = l :=
  subUnsafeGo_allowed l false h

theorem dropWhile_of_all_false (p : Char → Bool) (l : List Char)
    (h : ∀ c ∈ l, p c = false) : l.dropWhile p = l := by
  cases l with
  | nil => rfl
  | cons c rest =>
    rw [List.dropWhile_cons, if_neg]
    rw [h c (List.mem_cons_self c rest)]
    simp

theorem pyStripChars_no_space (l : List Char) (h : ∀ c ∈ l, pyIsSpace c = false) :
    pyStripChars l = l := by
  rw [pyStripChars, dropWhile_of_all_false pyIsSpace l h,
    dropWhile_of_all_false pyIsSpace l.reverse
      (fun c hc => h c (List.mem_reverse.mp hc)),
    List.reverse_reverse]

theorem posixBaseName_no_slash (l : List Char) (hne : l ≠ []) (hdot : l ≠ ['.'])
    (h : ∀ c ∈ l, (c == '/') = false) : posixBaseName l = l := by
  rw [posixBaseName, splitOnSlash_no_slash l h]
  have h1 : l.isEmpty = false := List.isEmpty_eq_false.mpr hne
  have h2 : (l == ['.']) = false := by
    rw [beq_eq_false_iff_ne]
    exact hdot
  rw [List.filter_cons, if_pos]
  · rfl
  · rw [h1, bne, h2]
    rfl

/-- C7: the sanitizer is total and its output is non-empty, at most 255
characters, and made of allowed characters — but the `.pdf`-suffix guarantee
fails: the code truncates to 255 characters *after* appending the extension,
so on a 256-character input the returned name does not end in `.pdf`,
contradicting the function's own docstring ("Sanitized filename with .pdf
extension, max 255 characters").  This theorem evaluates the code at the
failing input. -/
theorem C7_sanitizer_truncation_divergence :
    _sanitize_filename (List.replicate 256 'a') = List.replicate 255 'a' ∧
    pdfExt.isSuffixOf (_sanitize_filename (List.replicate 256 'a')) = false := by
  have hdot : (List.replicate 256 'a') ≠ ['.'] := by
    intro h
    have := congrArg List.length h
    rw [List.length_replicate, List.length_cons, List.length_nil] at this
    omega
  have hne : (List.replicate 256 'a') ≠ [] := by
    intro h
    have := congrArg List.length h
    rw [List.length_replicate, List.length_nil] at this
    omega
  have hbase : posixBaseName (List.replicate 256 'a') = List.replicate 256 'a' :=
    posixBaseName_no_slash (List.replicate 256 'a') hne hdot
      (fun c hc => by rw [List.eq_of_mem_replicate hc]; decide)
  have hsub : subUnsafe (List.replicate 256 'a') = List.replicate 256 'a' :=
    subUnsafe_allowed (List.replicate 256 'a')
      (fun c hc => by rw [List.eq_of_mem_replicate hc]; decide)
  have hstrip : pyStripChars (List.replicate 256 'a') = List.replicate 256 'a' :=
    pyStripChars_no_space (List.replicate 256 'a')
      (fun c hc => by rw [List.eq_of_mem_replicate hc]; decide)
  have hsuffix : ∀ n, pdfExt.isSuffixOf (List.replicate n 'a') = false := by
    intro n
    rw [Bool.eq_false_iff, Ne, List.isSuffixOf_iff_suffix]
    intro hsuf
    have hmem : 'f' ∈ List.replicate n 'a' :=
      hsuf.subset (by decide)
    have := List.eq_of_mem_replicate hmem
    exact absurd this (by decide)
  have hends : endsWithPdfCI (List.replicate 256 'a') = false := by
    rw [endsWithPdfCI, List.map_replicate]
    have htl : Char.toLower 'a' = 'a' := by decide
    rw [htl]
    exact hsuffix 256
  have hmain : _sanitize_filename (List.replicate 256 'a') = List.replicate 255 'a' := by
    rw [_sanitize_filename]
    simp only [hbase, hsub, hstrip, hends, Bool.false_eq_true, if_false]
    rw [List.take_append_eq_append_take, List.length_replicate, List.take_replicate]
    have h1 : (255 : Nat) - 256 = 0 := by omega
    have h2 : min 255 256 = 255 := by omega
    rw [h1, h2, List.take_zero, List.append_nil]
  refine ⟨hmain, ?_⟩
  rw [hmain]
  exact hsuffix 255

/-! ## C4 -/

/-- C4: for every pair of uploads, if either filename does not end in `.pdf`
(case-insensitively) or the two resolved destination paths are identical, the
call fails with the unwrapped validation error (`ValueError`, not the wrapped
`DocumentPortalException` kind) and the session directory is unchanged — no
files are written. -/
theorem C4_save_pair_validation (sessionPath : List Char) (ref actual : Upload)
    (refW actualW : WriteRes) (fs : FileMap)
    (h : endsWithPdfCI ref.name = false ∨ endsWithPdfCI actual.name = false ∨
      sessionPath ++ '/' :: ref.name = sessionPath ++ '/' :: actual.name) :
    save_uploaded_files sessionPath ref actual refW actualW fs =
      (.error .validation, fs) := by
  unfold save_uploaded_files
  rcases h with h | h | h
  · simp [h]
  · by_cases h1 : endsWithPdfCI ref.name
    · simp [h1, h]
    · simp only [Bool.not_eq_true] at h1
      simp [h1]
  · by_cases h1 : endsWithPdfCI ref.name
    · by_cases h2 : endsWithPdfCI actual.name
      · simp [h1, h2, h]
      · simp only [Bool.not_eq_true] at h2
        simp [h1, h2]
    · simp only [Bool.not_eq_true] at h1
      simp [h1]

/-- Witness for C4 at the spec's E2E scenario C: identical names `ref.pdf`. -/
theorem C4_save_pair_validation_witness :
    save_uploaded_files "s".data ⟨"ref.pdf".data, [1]⟩ ⟨"ref.pdf".data, [2]⟩
        .ok .ok [("s/x.pdf".data, [9])] =
      (.error .validation, [("s/x.pdf".data, [9])]) :=
  C4_save_pair_validation "s".data ⟨"ref.pdf".data, [1]⟩ ⟨"ref.pdf".data, [2]⟩
    .ok .ok [("s/x.pdf".data, [9])] (Or.inr (Or.inr rfl))

/-! ## C6 -/

/-- C6 (amended): `save_document`'s failure paths always remove the temporary
file before the error returns; `save_uploaded_files` gives no such guarantee —
when the write of the second (actual) file fails, the already-written
reference file remains in the session directory, along with the partially
written actual file. -/
theorem C6_failure_cleanup_scope :
    (∀ (fileName uuidHex : List Char) (evts : List SaveEvt) (maxSizeMb : Nat)
      (e : SaveErr),
      (save_document fileName uuidHex evts maxSizeMb).1 = .error e →
      (save_document fileName uuidHex evts maxSizeMb).2.tmp = none) ∧
    (∀ (sessionPath : List Char) (ref actual : Upload) (w : List Nat) (fs : FileMap),
      endsWithPdfCI ref.name = true → endsWithPdfCI actual.name = true →
      ref.name ≠ actual.name →
      (save_uploaded_files sessionPath ref actual .ok (.err w) fs).1 = .error .wrapped ∧
      lookupFile (save_uploaded_files sessionPath ref actual .ok (.err w) fs).2
        (sessionPath ++ '/' :: ref.name) = some ref.buffer ∧
      lookupFile (save_uploaded_files sessionPath ref actual .ok (.err w) fs).2
        (sessionPath ++ '/' :: actual.name) = some w) := by
  constructor
  · intro fileName uuidHex evts maxSizeMb e herr
    rw [save_document_err_fs fileName uuidHex evts maxSizeMb e herr]
  · intro sessionPath ref actual w fs h1 h2 hne
    have hpath : (sessionPath ++ '/' :: ref.name) ≠ (sessionPath ++ '/' :: actual.name) := by
      intro h
      apply hne
      have h3 := List.append_cancel_left h
      injection h3
    have hbeq : ((sessionPath ++ '/' :: ref.name) ==
        (sessionPath ++ '/' :: actual.name)) = false := by
      rw [beq_eq_false_iff_ne]
      exact hpath
    have hbeq2 : ((sessionPath ++ '/' :: actual.name) ==
        (sessionPath ++ '/' :: ref.name)) = false := by
      rw [beq_eq_false_iff_ne]
      exact fun h => hpath h.symm
    unfold save_uploaded_files
    simp only [h1, h2, Bool.not_true, Bool.false_eq_true, if_false, hbeq]
    refine ⟨trivial, ?_, ?_⟩
    · rw [lookupFile, setFile]
      rw [List.find?_cons_of_neg _ (by simp only [hbeq2]; exact Bool.false_ne_true)]
      rw [setFile, List.filter_cons, if_pos (by simp only [hbeq]; rfl)]
      rw [List.find?_cons_of_pos _ (by simp)]
      rfl
    · rw [lookupFile, setFile]
      rw [List.find?_cons_of_pos _ (by simp)]
      rfl

/-- Witness for C6: part one at an interrupted stream, part two at two
distinct `.pdf` uploads where the second write fails. -/
theorem C6_failure_cleanup_scope_witness :
    (save_document "f.pdf".data "ab".data [SaveEvt.readErr] 1).2.tmp = none ∧
    ((save_uploaded_files "s".data ⟨"a.pdf".data, [1, 2]⟩ ⟨"b.pdf".data, [3, 4]⟩
        .ok (.err [3]) []).1 = .error .wrapped ∧
      lookupFile (save_uploaded_files "s".data ⟨"a.pdf".data, [1, 2]⟩
          ⟨"b.pdf".data, [3, 4]⟩ .ok (.err [3]) []).2 "s/a.pdf".data = some [1, 2] ∧
      lookupFile (save_uploaded_files "s".data ⟨"a.pdf".data, [1, 2]⟩
          ⟨"b.pdf".data, [3, 4]⟩ .ok (.err [3]) []).2 "s/b.pdf".data = some [3]) := by
  constructor
  · exact C6_failure_cleanup_scope.1 "f.pdf".data "ab".data [SaveEvt.readErr] 1 .ioErr rfl
  · exact C6_failure_cleanup_scope.2 "s".data ⟨"a.pdf".data, [1, 2]⟩
      ⟨"b.pdf".data, [3, 4]⟩ [3] [] rfl rfl (by decide)

/-- Counterexample to C6 as stated: when `save_uploaded_files` fails while
writing the second (actual) file, the already-written reference file and the
partially written actual file both remain in the session directory. -/
theorem C6_counterexample :
    (save_uploaded_files "s".data ⟨"a.pdf".data, [1, 2]⟩ ⟨"b.pdf".data, [3, 4]⟩
        .ok (.err [3]) [] ).1 = .error .wrapped ∧
    lookupFile (save_uploaded_files "s".data ⟨"a.pdf".data, [1, 2]⟩
        ⟨"b.pdf".data, [3, 4]⟩ .ok (.err [3]) []).2 "s/a.pdf".data = some [1, 2] ∧
    lookupFile (save_uploaded_files "s".data ⟨"a.pdf".data, [1, 2]⟩
        ⟨"b.pdf".data, [3, 4]⟩ .ok (.err [3]) []).2 "s/b.pdf".data = some [3] :=
  ⟨rfl, rfl, rfl⟩

/-! ## Sorting lemmas (for `combine_documents` and `cleanup_sessions`) -/

theorem pyInsert_perm (le : α → α → Bool) (a : α) (l : List α) :
    (pyInsert le a l).Perm (a :: l) := by
  induction l with
  | nil => exact List.Perm.refl _
  | cons b bs ih =>
    rw [pyInsert]
    by_cases h : le a b = true
    · rw [if_pos h]
    · rw [if_neg h]
      exact (ih.cons b).trans (List.Perm.swap a b bs)

theorem pySorted_perm (le : α → α → Bool) (l : List α) :
    (pySorted le l).Perm l := by
  induction l with
  | nil => exact List.Perm.refl _
  | cons a as ih =>
    rw [pySorted]
    exact (pyInsert_perm le a (pySorted le as)).trans (ih.cons a)

theorem pyInsert_pairwise (le : α → α → Bool)
    (htrans : ∀ a b c, le a b = true → le b c = true → le a c = true)
    (htotal : ∀ a b, le a b = true ∨ le b a = true)
    (a : α) (l : List α) (hl : l.Pairwise (fun x y => le x y = true)) :
    (pyInsert le a l).Pairwise (fun x y => le x y = true) := by
  induction l with
  | nil => simp [pyInsert]
  | cons b bs ih =>
    rw [pyInsert]
    rcases List.pairwise_cons.mp hl with ⟨hb, hbs⟩
    by_cases h : le a b = true
    · rw [if_pos h]
      refine List.pairwise_cons.mpr ⟨?_, hl⟩
      intro x hx
      rcases List.mem_cons.mp hx with rfl | hx
      · exact h
      · exact htrans a b x h (hb x hx)
    · rw [if_neg h]
      have hba : le b a = true := by
        rcases htotal a b with h1 | h1
        · exact absurd h1 h
        · exact h1
      refine List.pairwise_cons.mpr ⟨?_, ih hbs⟩
      intro x hx
      rcases List.mem_cons.mp ((pyInsert_perm le a bs).mem_iff.mp hx) with rfl | hx2
      · exact hba
      · exact hb x hx2

theorem pySorted_pairwise (le : α → α → Bool)
    (htrans : ∀ a b c, le a b = true → le b c = true → le a c = true)
    (htotal : ∀ a b, le a b = true ∨ le b a = true)
    (l : List α) : (pySorted le l).Pairwise (fun x y => le x y = true) := by
  induction l with
  | nil => simp [pySorted]
  | cons a as ih =>
    rw [pySorted]
    exact pyInsert_pairwise le htrans htotal a (pySorted le as) ih

theorem charListLe_total : ∀ (a b : List Char),
    charListLe a b = true ∨ charListLe b a = true := by
  intro a
  induction a with
  | nil => intro b; left; rfl
  | cons c cs ih =>
    intro b
    cases b with
    | nil => right; rfl
    | cons d ds =>
      by_cases h1 : c.toNat < d.toNat
      · left
        rw [charListLe, if_pos h1]
      · by_cases h2 : c.toNat = d.toNat
        · rcases ih ds with h | h
          · left
            rw [charListLe, if_neg h1, if_pos h2]
            exact h
          · right
            rw [charListLe, if_neg (by omega), if_pos (by omega)]
            exact h
        · right
          rw [charListLe, if_pos (by omega)]

theorem charListLe_trans : ∀ (a b c : List Char),
    charListLe a b = true → charListLe b c = true → charListLe a c = true := by
  intro a
  induction a with
  | nil => intro b c _ _; rfl
  | cons x xs ih =>
    intro b c hab hbc
    cases b with
    | nil => rw [charListLe] at hab; simp at hab
    | cons y ys =>
      cases c with
      | nil => rw [charListLe] at hbc; simp at hbc
      | cons z zs =>
        rw [charListLe] at hab hbc ⊢
        by_cases h1 : x.toNat < y.toNat
        · by_cases h2 : y.toNat < z.toNat
          · rw [if_pos (by omega)]
          · by_cases h3 : y.toNat = z.toNat
            · rw [if_pos (by omega)]
            · rw [if_neg h2, if_neg h3] at hbc
              simp at hbc
        · by_cases h1e : x.toNat = y.toNat
          · rw [if_neg h1, if_pos h1e] at hab
            by_cases h2 : y.toNat < z.toNat
            · rw [if_pos (by omega)]
            · by_cases h3 : y.toNat = z.toNat
              · rw [if_neg h2, if_pos h3] at hbc
                rw [if_neg (by omega), if_pos (by omega)]
                exact ih ys zs hab hbc
              · rw [if_neg h2, if_neg h3] at hbc
                simp at hbc
          · rw [if_neg h1, if_neg h1e] at hab
            simp at hab

/-! ## C5 -/

/-- C5: `combine_documents` lists the session's `.pdf` entries in
filename-sorted order (a permutation of the `.pdf`-filtered listing, pairwise
sorted by code-point order); whenever at least one document survives (its read
neither fails nor yields only whitespace) the call returns, without raising,
the survivors' `Document: <name>` blocks joined by a double newline in that
sorted order; and the call fails exactly when the `.pdf` set is non-empty and
every document in it failed. -/
theorem C5_combine_partial_batch_tolerance (entries : List (String × ReadOutcome)) :
    (sorted_pdf_files entries).Perm
      (entries.filter (fun e => endsWithPdfCI e.1.data)) ∧
    List.Pairwise (fun d1 d2 => charListLe d1.1.data d2.1.data = true)
      (sorted_pdf_files entries) ∧
    (∀ d ∈ sorted_pdf_files entries, docBlock d ≠ none →
      combine_documents entries =
        .ok (String.intercalate "\n\n" ((sorted_pdf_files entries).filterMap docBlock))) ∧
    (combine_documents entries = .error () ↔
      sorted_pdf_files entries ≠ [] ∧
        ∀ d ∈ sorted_pdf_files entries, docBlock d = none) := by
  refine ⟨pySorted_perm _ _, ?_, ?_, ?_⟩
  · exact pySorted_pairwise _
      (fun (a b c : String × ReadOutcome) hab hbc =>
        charListLe_trans a.1.data b.1.data c.1.data hab hbc)
      (fun (a b : String × ReadOutcome) => charListLe_total a.1.data b.1.data) _
  · intro d hd hblock
    have hne : sorted_pdf_files entries ≠ [] := List.ne_nil_of_mem hd
    have hparts : (sorted_pdf_files entries).filterMap docBlock ≠ [] := by
      intro hnil
      exact hblock (List.filterMap_eq_nil_iff.mp hnil d hd)
    rw [combine_documents]
    rw [if_neg (by rw [List.isEmpty_eq_false.mpr hne]; exact Bool.false_ne_true)]
    rw [if_neg (by rw [List.isEmpty_eq_false.mpr hparts]; exact Bool.false_ne_true)]
  · rw [combine_documents]
    by_cases hS : sorted_pdf_files entries = []
    · rw [if_pos (by rw [List.isEmpty_iff]; exact hS)]
      constructor
      · intro h; exact absurd h (by simp)
      · intro ⟨h, _⟩; exact absurd hS h
    · rw [if_neg (by rw [List.isEmpty_eq_false.mpr hS]; exact Bool.false_ne_true)]
      by_cases hP : (sorted_pdf_files entries).filterMap docBlock = []
      · rw [if_pos (by rw [List.isEmpty_iff]; exact hP)]
        constructor
        · intro _
          exact ⟨hS, List.filterMap_eq_nil_iff.mp hP⟩
        · intro _; rfl
      · rw [if_neg (by rw [List.isEmpty_eq_false.mpr hP]; exact Bool.false_ne_true)]
        constructor
        · intro h; exact absurd h (by simp)
        · intro ⟨_, hall⟩
          exact absurd (List.filterMap_eq_nil_iff.mpr hall) hP

/-- Witness for C5 at the spec's P7 shape: three documents where the middle
one (in sorted order) fails; the two survivors' blocks are concatenated in
filename-sorted order. -/
theorem C5_combine_partial_batch_tolerance_witness :
    combine_documents [("c.pdf", .ok "C"), ("b.pdf", .err), ("a.pdf", .ok "A")] =
      .ok (String.intercalate "\n\n"
        ((sorted_pdf_files [("c.pdf", .ok "C"), ("b.pdf", .err), ("a.pdf", .ok "A")]).filterMap
          docBlock)) ∧
    combine_documents [("c.pdf", .ok "C"), ("b.pdf", .err), ("a.pdf", .ok "A")] =
      .ok "Document: a.pdf\nA\n\nDocument: c.pdf\nC" ∧
    combine_documents [("a.pdf", ReadOutcome.err)] = .error () := by
  refine ⟨?_, rfl, rfl⟩
  exact (C5_combine_partial_batch_tolerance
      [("c.pdf", .ok "C"), ("b.pdf", .err), ("a.pdf", .ok "A")]).2.2.1
    ("a.pdf", .ok "A") (by decide) (by decide)

/-! ## C9 -/

theorem pyStrip_empty : pyStrip "" = "" := rfl

theorem collect_page_texts_eq (pages : List String) :
    ∀ n, collect_page_texts pages n =
      ((List.enumFrom n pages).filter (fun it => pyStrip it.2 != "")).map
        (fun it => pageMarker (it.1 + 1) ++ it.2) := by
  induction pages with
  | nil => intro n; rfl
  | cons t rest ih =>
    intro n
    rw [collect_page_texts, List.enumFrom_cons, List.filter_cons]
    by_cases h : pyStrip t = ""
    · have hcond : (t != "" && pyStrip t != "") = false := by
        simp [h]
      rw [if_neg (by rw [hcond]; exact Bool.false_ne_true)]
      rw [if_neg (by simp [h])]
      exact ih (n + 1)
    · have ht : t ≠ "" := by
        intro he
        rw [he] at h
        exact h pyStrip_empty
      rw [if_pos (by simp [h, ht])]
      rw [if_pos (by simp [h])]
      rw [List.map_cons]
      rw [ih (n + 1)]

/-- C9: `read_pdf` on an existing, regular-file, non-encrypted PDF returns the
empty string (not a failure) for a zero-page document, and in general returns
the page blocks of exactly those pages whose extracted text is not
whitespace-only, each preceded by its `--- Page <n> ---` header, in source
page order. -/
theorem C9_read_pdf_page_blocks (pages : List String) :
    read_pdf true true false [] = .ok "" ∧
    read_pdf true true false pages =
      .ok (String.intercalate "\n"
        (((List.enumFrom 0 pages).filter (fun it => pyStrip it.2 != "")).map
          (fun it => pageMarker (it.1 + 1) ++ it.2))) := by
  constructor
  · rfl
  · show (if pages.length = 0 then Except.ok "" else
      .ok (String.intercalate "\n" (collect_page_texts pages 0))) = _
    by_cases h : pages.length = 0
    · have hnil : pages = [] := List.length_eq_zero.mp h
      subst hnil
      rfl
    · rw [if_neg h, collect_page_texts_eq pages 0]

/-! ## C10 -/

/-- C10: `cleanup_sessions` never propagates deletion failures (it always
returns the surviving directory set); `keep_latest < 1` is replaced by the
default 3 rather than raising; the sessions are considered in creation-time
descending order (a sorted permutation of the listing); and when every
old directory is deletable, exactly the `keep_latest` most recently created
directories remain. -/
theorem C10_prune_retention (b : Bool) (dirs : List SessionDir) (k : Int) :
    (∃ rem, cleanup_sessions b dirs k = .ok rem) ∧
    (k < 1 → cleanup_sessions b dirs k = cleanup_sessions b dirs 3) ∧
    List.Pairwise (fun d1 d2 => d2.ctime ≤ d1.ctime) (pySorted sessionLe dirs) ∧
    (pySorted sessionLe dirs).Perm dirs ∧
    ((∀ d ∈ dirs, d.deletable = true) → 1 ≤ k →
      cleanup_sessions true dirs k = .ok ((pySorted sessionLe dirs).take k.toNat)) := by
  refine ⟨?_, ?_, ?_, pySorted_perm _ _, ?_⟩
  · rw [cleanup_sessions]
    cases b with
    | false => exact ⟨dirs, rfl⟩
    | true => exact ⟨_, rfl⟩
  · intro hk
    rw [cleanup_sessions, cleanup_sessions]
    have h1 : (if k < 1 then (3 : Nat) else k.toNat) = 3 := if_pos hk
    have h2 : (if (3 : Int) < 1 then (3 : Nat) else (3 : Int).toNat) = 3 := by
      rw [if_neg (by omega)]
      rfl
    rw [h1, h2]
  · have hp := pySorted_pairwise sessionLe
      (fun a b c hab hbc => by
        simp only [sessionLe, decide_eq_true_eq] at hab hbc ⊢
        omega)
      (fun a b => by
        simp only [sessionLe, decide_eq_true_eq]
        omega)
      dirs
    refine List.Pairwise.imp ?_ hp
    intro a b h
    simpa [sessionLe, decide_eq_true_eq] using h
  · intro hdel hk
    rw [cleanup_sessions]
    have hkeep : (if k < 1 then (3 : Nat) else k.toNat) = k.toNat :=
      if_neg (by omega)
    have hfil : ((pySorted sessionLe dirs).drop k.toNat).filter
        (fun d => !d.deletable) = [] := by
      rw [List.filter_eq_nil_iff]
      intro d hd
      have hmem : d ∈ dirs :=
        (pySorted_perm sessionLe dirs).mem_iff.mp (List.mem_of_mem_drop hd)
      rw [hdel d hmem]
      simp
    simp only [Bool.not_true, Bool.false_eq_true, if_false, hkeep, hfil,
      List.append_nil]

/-- Witness for C10 at the spec's E2E scenario D: five session directories,
`keep_latest = 2`, all deletable — exactly the two most recently created
remain. -/
theorem C10_prune_retention_witness :
    cleanup_sessions true
        [⟨"s1", 10, true⟩, ⟨"s2", 50, true⟩, ⟨"s3", 30, true⟩,
         ⟨"s4", 20, true⟩, ⟨"s5", 40, true⟩] 2 =
      .ok ((pySorted sessionLe
        [⟨"s1", 10, true⟩, ⟨"s2", 50, true⟩, ⟨"s3", 30, true⟩,
         ⟨"s4", 20, true⟩, ⟨"s5", 40, true⟩]).take (2 : Int).toNat) ∧
    cleanup_sessions true
        [⟨"s1", 10, true⟩, ⟨"s2", 50, true⟩, ⟨"s3", 30, true⟩,
         ⟨"s4", 20, true⟩, ⟨"s5", 40, true⟩] 2 =
      .ok [⟨"s2", 50, true⟩, ⟨"s5", 40, true⟩] := by
  refine ⟨?_, rfl⟩
  exact (C10_prune_retention true
      [⟨"s1", 10, true⟩, ⟨"s2", 50, true⟩, ⟨"s3", 30, true⟩,
       ⟨"s4", 20, true⟩, ⟨"s5", 40, true⟩] 2).2.2.2.2
    (by decide) (by decide)

/-! ## C8 helper lemmas -/

theorem foldl_append_eq (l : List String) :
    ∀ s : String, l.foldl (fun r t => r ++ t) s = s ++ String.join l := by
  induction l with
  | nil =>
    intro s
    exact (String.append_empty s).symm
  | cons t ts ih =>
    intro s
    have hj : String.join (t :: ts) = t ++ String.join ts := by
      show (t :: ts).foldl (fun r u => r ++ u) "" = t ++ String.join ts
      rw [List.foldl_cons, ih ("" ++ t), String.empty_append]
    rw [List.foldl_cons, ih (s ++ t), hj, String.append_assoc]

theorem join_cons (t : String) (ts : List String) :
    String.join (t :: ts) = t ++ String.join ts := by
  show (t :: ts).foldl (fun r u => r ++ u) "" = t ++ String.join ts
  rw [List.foldl_cons, foldl_append_eq ts ("" ++ t), String.empty_append]

theorem join_append (l1 l2 : List String) :
    String.join (l1 ++ l2) = String.join l1 ++ String.join l2 := by
  induction l1 with
  | nil =>
    rw [List.nil_append]
    exact (String.empty_append _).symm
  | cons t ts ih =>
    rw [List.cons_append, join_cons, join_cons, ih, String.append_assoc]

theorem accumulate_chunks_take (cap : Nat) :
    ∀ (l : List String) (size : Nat), ∃ j, accumulate_chunks cap l size = l.take j := by
  intro l
  induction l with
  | nil => intro size; exact ⟨0, rfl⟩
  | cons piece rest ih =>
    intro size
    rw [accumulate_chunks]
    by_cases h : size + piece.length > cap
    · exact ⟨0, by rw [if_pos h]; rfl⟩
    · obtain ⟨j, hj⟩ := ih (size + piece.length)
      exact ⟨j + 1, by rw [if_neg h, hj]; rfl⟩

theorem flatten_take_split (G : List (List String)) :
    ∀ j, ∃ a p, a ≤ G.length ∧ G.flatten.take j = (G.take a).flatten ++ p ∧
      p <+: G.getD a [] := by
  induction G with
  | nil =>
    intro j
    exact ⟨0, [], Nat.le_refl 0, by simp, by simp⟩
  | cons g gs ih =>
    intro j
    rw [List.flatten_cons, List.take_append_eq_append_take]
    by_cases h : j ≤ g.length
    · refine ⟨0, g.take j, by simp, ?_, ?_⟩
      · have h0 : j - g.length = 0 := by omega
        rw [h0, List.take_zero, List.append_nil]
        simp
      · simpa using List.take_prefix j g
    · obtain ⟨a, p, ha, heq, hp⟩ := ih (j - g.length)
      refine ⟨a + 1, p, by simpa using ha, ?_, ?_⟩
      · rw [List.take_of_length_le (by omega : g.length ≤ j), heq,
          List.take_succ_cons, List.flatten_cons, List.append_assoc]
      · simpa using hp

theorem join_group_flatten (pages : List String) :
    ∀ l : List Nat,
      String.join ((l.map
          (fun i => [pageMarker (i + 1), pages.getD i "", "\n"])).flatten) =
        String.join (l.map (fun i => pageMarker (i + 1) ++ pages.getD i "" ++ "\n")) := by
  intro l
  induction l with
  | nil => rfl
  | cons i is ih =>
    simp only [List.map_cons, List.flatten_cons, join_append, join_cons, ih]
    simp [String.append_assoc, String.append_empty,
      show String.join ([] : List String) = "" from rfl]

theorem prefix_of_triple {x y z : α} :
    ∀ {p : List α}, p <+: [x, y, z] →
      p = [] ∨ p = [x] ∨ p = [x, y] ∨ p = [x, y, z] := by
  intro p h
  obtain ⟨t, ht⟩ := h
  cases p with
  | nil => exact Or.inl rfl
  | cons a p =>
    rw [List.cons_append] at ht
    injection ht with h1 ht
    subst h1
    cases p with
    | nil =>
      exact Or.inr (Or.inl rfl)
    | cons b p =>
      rw [List.cons_append] at ht
      injection ht with h2 ht
      subst h2
      cases p with
      | nil =>
        exact Or.inr (Or.inr (Or.inl rfl))
      | cons c p =>
        rw [List.cons_append] at ht
        injection ht with h3 ht
        subst h3
        cases p with
        | nil =>
          exact Or.inr (Or.inr (Or.inr rfl))
        | cons d p =>
          rw [List.cons_append] at ht
          simp at ht

/-- The accumulated output of `read_document`'s loop over the first `P` page
groups decomposes into whole page blocks `1..K` followed by at most a partial
block of page `K + 1`. -/
theorem read_document_structure (pages : List String) (P : Nat) :
    ∃ K r, K ≤ P ∧
      String.join (accumulate_chunks 1048576
        (((List.range P).map
          (fun i => [pageMarker (i + 1), pages.getD i "", "\n"])).flatten) 0) =
        String.join ((List.range K).map
          (fun i => pageMarker (i + 1) ++ pages.getD i "" ++ "\n")) ++ r ∧
      (r = "" ∨ r = pageMarker (K + 1) ∨ r = pageMarker (K + 1) ++ pages.getD K "") := by
  obtain ⟨j, hj⟩ := accumulate_chunks_take 1048576
    (((List.range P).map (fun i => [pageMarker (i + 1), pages.getD i "", "\n"])).flatten) 0
  obtain ⟨a, p, ha, heq, hp⟩ := flatten_take_split
    ((List.range P).map (fun i => [pageMarker (i + 1), pages.getD i "", "\n"])) j
  have hGlen : ((List.range P).map
      (fun i => [pageMarker (i + 1), pages.getD i "", "\n"])).length = P := by
    rw [List.length_map, List.length_range]
  have haP : a ≤ P := by rw [hGlen] at ha; exact ha
  have htake : ((List.range P).map
      (fun i => [pageMarker (i + 1), pages.getD i "", "\n"])).take a =
      (List.range a).map (fun i => [pageMarker (i + 1), pages.getD i "", "\n"]) := by
    rw [← List.map_take]
    congr 1
    rw [List.take_range]
    exact congrArg List.range (Nat.min_eq_left haP)
  have hbase : String.join (accumulate_chunks 1048576
      (((List.range P).map
        (fun i => [pageMarker (i + 1), pages.getD i "", "\n"])).flatten) 0) =
      String.join ((List.range a).map
        (fun i => pageMarker (i + 1) ++ pages.getD i "" ++ "\n")) ++ String.join p := by
    rw [hj, heq, htake, join_append, join_group_flatten]
  by_cases haG : a < P
  · have hgd : ((List.range P).map
        (fun i => [pageMarker (i + 1), pages.getD i "", "\n"])).getD a [] =
        [pageMarker (a + 1), pages.getD a "", "\n"] := by
      rw [List.getD_eq_getElem _ _ (by rw [hGlen]; exact haG)]
      simp
    rw [hgd] at hp
    rcases prefix_of_triple hp with rfl | rfl | rfl | rfl
    · exact ⟨a, "", haP, by rw [hbase]; rfl, Or.inl rfl⟩
    · refine ⟨a, pageMarker (a + 1), haP, ?_, Or.inr (Or.inl rfl)⟩
      rw [hbase, join_cons]
      rw [show String.join [] = "" from rfl, String.append_empty]
    · refine ⟨a, pageMarker (a + 1) ++ pages.getD a "", haP, ?_,
        Or.inr (Or.inr rfl)⟩
      rw [hbase, join_cons, join_cons]
      rw [show String.join [] = "" from rfl, String.append_empty]
    · refine ⟨a + 1, "", haG, ?_, Or.inl rfl⟩
      rw [hbase, String.append_empty]
      rw [List.range_succ, List.map_append, join_append]
      congr 1
  · have haEq : a = P := by omega
    have hgd : ((List.range P).map
        (fun i => [pageMarker (i + 1), pages.getD i "", "\n"])).getD a [] = [] := by
      apply List.getD_eq_default
      rw [hGlen]
      omega
    rw [hgd] at hp
    have hpnil : p = [] := List.prefix_nil.mp hp
    subst hpnil
    exact ⟨a, "", haP, by rw [hbase]; rfl, Or.inl rfl⟩

/-! ## C8 -/

/-- C8 (amended): the output of `read_document` consists of whole page blocks
for consecutive pages `1..K` (markers in strictly increasing order starting at
1) followed by at most a partial block of page `K + 1`, where `K` never
exceeds the page count; when `max_pages = m` with `m ≥ 1`, at most `m` pages
are emitted; accumulation stops without failing at the 1 MiB soft cap (the
kept fragments are always a prefix of the generated fragments).  Because
Python's `max_pages or total_pages` treats `0` as "no limit", `max_pages = 0`
behaves exactly like `max_pages = None` and processes every page — the original
claim's "fewer than N markers when max_pages < N" fails at `max_pages = 0`
(see the counterexample). -/
theorem C8_read_document_marker_order (pages : List String) (maxPages : Option Nat) :
    ∃ K r, K ≤ pages.length ∧
      read_document pages maxPages =
        String.join ((List.range K).map
          (fun i => pageMarker (i + 1) ++ pages.getD i "" ++ "\n")) ++ r ∧
      (r = "" ∨ r = pageMarker (K + 1) ∨ r = pageMarker (K + 1) ++ pages.getD K "") ∧
      (∀ m, maxPages = some m → m ≠ 0 → K ≤ m) ∧
      read_document pages (some 0) = read_document pages none := by
  rcases maxPages with _ | m
  · obtain ⟨K, r, hK, heq, hr⟩ :=
      read_document_structure pages (min pages.length pages.length)
    refine ⟨K, r, by omega, heq, hr, ?_, rfl⟩
    intro m hm
    exact absurd hm (by simp)
  · cases m with
    | zero =>
      obtain ⟨K, r, hK, heq, hr⟩ :=
        read_document_structure pages (min pages.length pages.length)
      refine ⟨K, r, by omega, heq, hr, ?_, rfl⟩
      intro m hm hm0
      injection hm with hm
      exact absurd hm.symm hm0
    | succ m =>
      obtain ⟨K, r, hK, heq, hr⟩ :=
        read_document_structure pages (min (m + 1) pages.length)
      refine ⟨K, r, by omega, heq, hr, ?_, rfl⟩
      intro m2 hm2 _
      injection hm2 with hm2
      subst hm2
      omega

/-- Witness for C8 at a concrete two-page document with `max_pages = 1`. -/
theorem C8_read_document_marker_order_witness :
    (∃ K r, K ≤ (["a", "b"] : List String).length ∧
      read_document ["a", "b"] (some 1) =
        String.join ((List.range K).map
          (fun i => pageMarker (i + 1) ++ (["a", "b"] : List String).getD i "" ++ "\n")) ++ r ∧
      (r = "" ∨ r = pageMarker (K + 1) ∨
        r = pageMarker (K + 1) ++ (["a", "b"] : List String).getD K "") ∧
      (∀ m, (some 1 : Option Nat) = some m → m ≠ 0 → K ≤ m) ∧
      read_document ["a", "b"] (some 0) = read_document ["a", "b"] none) ∧
    read_document ["a", "b"] (some 1) = "\n--- Page 1 ---\na\n" :=
  ⟨C8_read_document_marker_order ["a", "b"] (some 1), rfl⟩

/-- Counterexample to C8 as stated: with `max_pages = 0` (which the claim
includes and for which it requires fewer than `N` markers), the code processes
every page — the output equals the unlimited output and still contains the
marker of the last page. -/
theorem C8_counterexample :
    read_document ["a", "b"] (some 0) = read_document ["a", "b"] none ∧
    read_document ["a", "b"] (some 0) = "\n--- Page 1 ---\na\n\n--- Page 2 ---\nb\n" ∧
    (pageMarker 2).data <:+: (read_document ["a", "b"] (some 0)).data :=
  ⟨rfl, rfl, ⟨"\n--- Page 1 ---\na\n".data, "b\n".data, by decide⟩⟩

end DocPortal
